import Mathlib

/-!
Verification development for the llm-chess-arena repository.

The definitions below are a shallow embedding of the LLM move-elicitation
pipeline: the move-text extractor and sanitizer
(`llm_chess_arena/player/llm/llm_move_handler.py`), the move
normalizer/validator (`llm_chess_arena/utils.py`), the decision data model
(`llm_chess_arena/types.py`) and the retry/voting orchestrator
(`llm_chess_arena/player/llm/llm_player.py`).  Python strings are modelled
as `List Char` (all inputs of interest are ASCII); the external chess rules
engine (python-chess) and the network connector are modelled as explicit
function parameters whose contracts appear as hypotheses.
-/

set_option maxRecDepth 4000

/-! ### Character-level utilities modelling Python string operations -/

/-- Python `str.lower` restricted to ASCII. -/
def lowerChar (c : Char) : Char :=
  if 'A' ≤ c ∧ c ≤ 'Z' then Char.ofNat (c.toNat + 32) else c

/-- Python `str.upper` restricted to ASCII. -/
def upperChar (c : Char) : Char :=
  if 'a' ≤ c ∧ c ≤ 'z' then Char.ofNat (c.toNat - 32) else c

def lowerList (s : List Char) : List Char := s.map lowerChar

def upperList (s : List Char) : List Char := s.map upperChar

/-- The whitespace characters of Python `str.strip()` / `\s`. -/
def isPySpace (c : Char) : Bool :=
  c == ' ' || c == '\t' || c == '\n' || c == '\r' ||
    c == Char.ofNat 11 || c == Char.ofNat 12

/-- Strip characters satisfying `p` from both ends (Python `str.strip`). -/
def stripBoth (p : Char → Bool) (t : List Char) : List Char :=
  ((t.dropWhile p).reverse.dropWhile p).reverse

/-- Python `str.strip()` (no argument: whitespace). -/
def pyStrip (t : List Char) : List Char := stripBoth isPySpace t

/-- The character set of Python `str.strip(" .")`. -/
def isSpaceDot (c : Char) : Bool := c == ' ' || c == '.'

/-- `pat` occurs in `text` at position `i` (substring test). -/
def occursAtB (text pat : List Char) (i : Nat) : Bool :=
  pat.isPrefixOf (text.drop i)

/-- Search downward from start index `i` for the last occurrence of `pat`. -/
def rfindAux (text pat : List Char) : Nat → Option Nat
  | 0 => if occursAtB text pat 0 then some 0 else none
  | i + 1 => if occursAtB text pat (i + 1) then some (i + 1) else rfindAux text pat i

/-- Python `str.rfind` (for non-empty `pat`): index of the last occurrence. -/
def rfindSub (text pat : List Char) : Option Nat :=
  if pat.length ≤ text.length then rfindAux text pat (text.length - pat.length)
  else none

/-- Worker for `replaceAll`, structurally recursive on a fuel argument.
Each step consumes at least one character, so fuel equal to the input
length never runs out (the fuel-0 case is unreachable from `replaceAll`). -/
def replaceAllFuel (pat repl : List Char) : Nat → List Char → List Char
  | 0, t => t
  | _ + 1, [] => []
  | fuel + 1, c :: rest =>
    if pat ≠ [] ∧ pat.isPrefixOf (c :: rest) then
      repl ++ replaceAllFuel pat repl fuel ((c :: rest).drop pat.length)
    else
      c :: replaceAllFuel pat repl fuel rest

/-- Python `str.replace(pat, repl)`: replace every non-overlapping occurrence,
left to right.  All call sites use a non-empty `pat`. -/
def replaceAll (pat repl t : List Char) : List Char :=
  replaceAllFuel pat repl t.length t

/-- Index of the first `'>'` in the list, failing at `'\n'` (the `.` of the
regex `<.*?>` does not match a newline). -/
def findTagClose : List Char → Option Nat
  | [] => none
  | c :: rest =>
    if c == '>' then some 0
    else if c == '\n' then none
    else (findTagClose rest).map (· + 1)

/-- Worker for `removeTags`, structurally recursive on a fuel argument.
Each step consumes at least one character, so fuel equal to the input
length never runs out (the fuel-0 case is unreachable from `removeTags`). -/
def removeTagsFuel : Nat → List Char → List Char
  | 0, t => t
  | _ + 1, [] => []
  | fuel + 1, c :: rest =>
    if c == '<' then
      match findTagClose rest with
      | some k => removeTagsFuel fuel (rest.drop (k + 1))
      | none => c :: removeTagsFuel fuel rest
    else
      c :: removeTagsFuel fuel rest

/-- Python `re.sub(r"<.*?>", "", s)`: remove HTML-like tags, shortest match,
scanning left to right. -/
def removeTags (t : List Char) : List Char :=
  removeTagsFuel t.length t

def braceOpenChar : Char := Char.ofNat 123

def braceCloseChar : Char := Char.ofNat 125

def backtickChar : Char := Char.ofNat 96

def backspaceChar : Char := Char.ofNat 8

/-- The artifact replacements of `_extract_raw_move_text`, in source order.
Note that the Python source strings `"\boxed{"` and `"\text{"` contain the
control characters backspace and tab (the comment in the source acknowledges
this), while `"\\boxed{"` and `"\\text{"` contain a literal backslash. -/
def artifactReplacements : List (List Char × List Char) :=
  [ (['$'], []),
    (['\\', 'b', 'o', 'x', 'e', 'd', braceOpenChar], []),
    (['\\', 't', 'e', 'x', 't', braceOpenChar], []),
    ([backspaceChar, 'o', 'x', 'e', 'd', braceOpenChar], []),
    (['\t', 'e', 'x', 't', braceOpenChar], []),
    ([braceCloseChar], []),
    (['*'], []),
    ([backtickChar], []),
    (['\n'], [' ']) ]

def applyReplacements (rs : List (List Char × List Char)) (t : List Char) : List Char :=
  rs.foldl (fun acc pr => replaceAll pr.1 pr.2 acc) t

/-- The `"Final Answer:"` marker variants, in source order. -/
def markers : List (List Char) :=
  [ "Final Answer:".data,
    "final answer:".data,
    "Final answer:".data,
    "The final answer is".data,
    "the final answer is".data,
    "My final answer is".data,
    "my final answer is".data ]

/-- The marker loop of `_extract_raw_move_text`: for each marker in order,
`rfind` its lowercase form in the lowercased response and stop at the first
marker found, returning its last-occurrence index and the marker length. -/
def findMarkerAux : List (List Char) → List Char → Option (Nat × Nat)
  | [], _ => none
  | m :: ms, rl =>
    match rfindSub rl (lowerList m) with
    | some i => some (i, m.length)
    | none => findMarkerAux ms rl

/-- The characters of `"abcdefghNBRQKO12345678x=+-#"`. -/
def plausibleChars : List Char := "abcdefghNBRQKO12345678x=+-#".data

/-- The separator class of `re.split(r"[\s,;.!]", ...)`. -/
def isSplitSep (c : Char) : Bool :=
  isPySpace c || c == ',' || c == ';' || c == '.' || c == '!'

/-- First element of `re.split(r"[\s,;.!]", s)`: the prefix before the first
separator (empty if `s` starts with a separator). -/
def firstToken (s : List Char) : List Char := s.takeWhile (fun c => !isSplitSep c)

/-- The castling test of `_extract_raw_move_text`: after stripping,
uppercasing and removing spaces and hyphens, the text is `"OO"` or `"OOO"`. -/
def castlingCheck (raw : List Char) : Bool :=
  let u := (upperList (pyStrip raw)).filter (fun c => !(c == ' ' || c == '-'))
  u == ['O', 'O'] || u == ['O', 'O', 'O']

/-- Processing of the text following the matched marker: strip spaces and
periods, remove formatting artifacts and tags, then either keep a castling
span with its spaces removed or take the first token. -/
def afterMarker (t : List Char) : List Char :=
  let raw := removeTags (applyReplacements artifactReplacements (stripBoth isSpaceDot t))
  if castlingCheck raw then (pyStrip raw).filter (fun c => !(c == ' '))
  else firstToken (pyStrip raw)

/-- `GameArenaLLMMoveHandler._extract_raw_move_text`. -/
def extractRawMoveText (response : List Char) : Option (List Char) :=
  if response = [] then none
  else
    match findMarkerAux markers (lowerList response) with
    | some (i, mlen) => some (afterMarker (response.drop (i + mlen)))
    | none =>
      let s := pyStrip response
      if s.length ≤ 10 ∧ s ≠ [] ∧ ' ' ∉ s ∧ ∃ c ∈ s, c ∈ plausibleChars
      then some s
      else none

/-! ### Sanitization (`_sanitize_move_text`) -/

def isDigitChar (c : Char) : Bool := '0' ≤ c && c ≤ '9'

/-- `re.match(r"(\d+)(\.+)\s*(.*)", s)`, returning group 3 on success.  The
trailing `(.*)` cannot cross a newline. -/
def digitPrefixRest (s : List Char) : Option (List Char) :=
  let ds := s.takeWhile isDigitChar
  let r1 := s.dropWhile isDigitChar
  let dots := r1.takeWhile (fun c => c == '.')
  if ds = [] ∨ dots = [] then none
  else
    let r2 := r1.dropWhile (fun c => c == '.')
    let r3 := r2.dropWhile isPySpace
    some (r3.takeWhile (fun c => !(c == '\n')))

/-- The punctuation characters stripped by `_sanitize_move_text`. -/
def punctChars : List Char :=
  [':', '.', '*', ',', '&', '^', '\\', '<', '>', braceOpenChar, braceCloseChar,
   '[', ']', '?', '!']

/-- The steps of `_sanitize_move_text` after the move-number handling:
strip the punctuation set, drop a trailing `"ep"`, and return the stripped
result (nothing if empty). -/
def sanitizeTail (s : List Char) : Option (List Char) :=
  let t1 := s.filter (fun c => !(punctChars.contains c))
  let t2 := if ['p', 'e'].isPrefixOf t1.reverse then t1.take (t1.length - 2) else t1
  if t2 = [] then none else some (pyStrip t2)

/-- `GameArenaLLMMoveHandler._sanitize_move_text` on a string input. -/
def sanitizeMoveText (raw : List Char) : Option (List Char) :=
  if raw = [] then none
  else
    let s := pyStrip raw
    match s.head? with
    | some c => if isDigitChar c then
        match digitPrefixRest s with
        | none => none
        | some rest => sanitizeTail rest
      else sanitizeTail s
    | none => sanitizeTail s

/-- `GameArenaLLMMoveHandler._extract_decision_text`: extraction followed by
sanitization (Python's `_sanitize_move_text(None)` returns `None`). -/
def extractDecisionText (response : List Char) : Option (List Char) :=
  match extractRawMoveText response with
  | none => none
  | some raw => sanitizeMoveText raw

/-! ### Data model (`llm_chess_arena/types.py`) -/

/-- `PlayerDecision`: `action` is `"move"` or `"resign"`; `attempted_move`
is required for moves; `response` keeps the raw LLM text for diagnostics. -/
structure PlayerDecision where
  action : String
  attempted_move : Option String := none
  response : Option String := none
deriving DecidableEq, Repr

/-- `PlayerDecision(action="resign")`. -/
def resignDecision : PlayerDecision := { action := "resign" }

/-! ### Move normalizer/validator (`llm_chess_arena/utils.py`)

The external chess rules engine (python-chess) is a collaborator, not part
of this repository: legality and SAN parsing are abstracted into `ChessLib`,
while the purely syntactic `chess.Move.from_uci` is modelled concretely.
Moves are represented by their canonical UCI strings (for every string
accepted by `from_uci`, `Move.from_uci(s).uci()` is reproduced below). -/

inductive MoveErrorKind where
  | invalid
  | illegal
  | ambiguous
deriving DecidableEq, Repr

def isFileChar (c : Char) : Bool := 'a' ≤ c && c ≤ 'h'

def isRankChar (c : Char) : Bool := '1' ≤ c && c ≤ '8'

/-- `PIECE_SYMBOLS` entries accepted as promotion / drop letters. -/
def pieceSymbolChars : List Char := ['p', 'n', 'b', 'r', 'q', 'k']

/-- `chess.Move.from_uci` followed by `.uci()`: `none` models the raised
`chess.InvalidMoveError`.  Accepts the null move `"0000"`, drops (`"N@e4"`),
and from-square/to-square moves with an optional lowercase promotion letter
(any piece symbol, including `'p'`); the two squares must differ. -/
def uciFromUci (u : String) : Option String :=
  match u.data with
  | ['0', '0', '0', '0'] => some u
  | [c0, '@', c2, c3] =>
    if lowerChar c0 ∈ pieceSymbolChars ∧ isFileChar c2 ∧ isRankChar c3 then
      some (String.mk [upperChar c0, '@', c2, c3])
    else none
  | [f1, r1, f2, r2] =>
    if isFileChar f1 ∧ isRankChar r1 ∧ isFileChar f2 ∧ isRankChar r2 ∧
        ¬(f1 = f2 ∧ r1 = r2) then
      some u
    else none
  | [f1, r1, f2, r2, pr] =>
    if isFileChar f1 ∧ isRankChar r1 ∧ isFileChar f2 ∧ isRankChar r2 ∧
        pr ∈ pieceSymbolChars ∧ ¬(f1 = f2 ∧ r1 = r2) then
      some u
    else none
  | _ => none

/-- The abstracted python-chess services consumed by
`parse_attempted_move_to_uci`: the legal moves of a FEN position (as UCI
strings) and `Board.parse_san` (returning the parsed move's UCI string, or
the kind of `chess.{Ambiguous,Invalid,Illegal}MoveError` it raises). -/
structure ChessLib where
  legalMovesUci : String → List String
  parseSanUci : String → String → Except MoveErrorKind String

/-- The castling-alias normalization at the top of
`parse_attempted_move_to_uci`.  Note the `else` branch restores the original
(unstripped) `attempted_move`. -/
def normalizeAttemptedMove (attempted : String) : String :=
  let s := String.mk (pyStrip attempted.data)
  let ls := String.mk (lowerList s.data)
  if ls = "o-o" ∨ ls = "0-0" then "O-O"
  else if ls = "o-o-o" ∨ ls = "0-0-0" then "O-O-O"
  else attempted

/-- The SAN fallback of `parse_attempted_move_to_uci`: `board.parse_san`
with each python-chess error class mapped to the same-kind repository
error. -/
def sanFallback (lib : ChessLib) (fen mn : String) : Except MoveErrorKind String :=
  lib.parseSanUci fen mn

/-- `parse_attempted_move_to_uci`.  Faithful to the source's control flow:
because `MoveError` subclasses `ValueError`, the `IllegalMoveError` raised
after a successful `chess.Move.from_uci` parse of an illegal move is caught
by the function's own `except ValueError:` handler, so execution falls
through to SAN parsing instead of propagating. -/
def parseAttemptedMoveToUci (lib : ChessLib) (attempted fen : String) :
    Except MoveErrorKind String :=
  let mn := normalizeAttemptedMove attempted
  match uciFromUci mn with
  | some u =>
    if u ∈ lib.legalMovesUci fen then Except.ok u
    else sanFallback lib fen mn
  | none => sanFallback lib fen mn

/-! ### The default move handler's parsing path
(`BaseLLMMoveHandler.parse_decision_from_response` with
`GameArenaLLMMoveHandler._extract_decision_text`) -/

/-- `parse_decision_from_response`: `none` models the raised
`ParseMoveError` (extraction returned `None` or an empty string); otherwise
a `PlayerDecision` with `action="move"` carrying the extracted text and the
raw response. -/
def parseDecisionFromResponse (response : String) : Option PlayerDecision :=
  match extractDecisionText response.data with
  | none => none
  | some cs =>
    if cs = [] then none
    else some { action := "move", attempted_move := some (String.mk cs),
                response := some response }

/-! ### Orchestrator (`LLMPlayer`, `llm_player.py`) -/

/-- `TimeoutError` / `ConnectionError` surfaced by `LLMConnector.query`. -/
inductive NetworkError where
  | timeout
  | connection
deriving DecidableEq, Repr

/-- Outcome of `_validate_player_decision_from_llm`: the validated decision,
a retryable move error (`InvalidMoveError` / `IllegalMoveError` /
`AmbiguousMoveError`), or the `NotImplementedError` raised for an
unsupported action. -/
inductive ValidationResult where
  | valid (d : PlayerDecision)
  | moveError (k : MoveErrorKind)
  | unsupported
deriving DecidableEq, Repr

/-- `_validate_player_decision_from_llm`, parameterized by the move parser
(`parse_attempted_move_to_uci` applied to the context's FEN).  A resign
decision is returned unchanged; a non-move, non-resign action raises
`NotImplementedError`; otherwise the attempted move is parsed and written
back in UCI form.  (For `action="move"` the pydantic model guarantees
`attempted_move` is present, so the `getD` default is never used there.) -/
def validateDecision (parseMove : String → Except MoveErrorKind String)
    (d : PlayerDecision) : ValidationResult :=
  if d.action = "resign" then .valid d
  else if d.action ≠ "move" then .unsupported
  else
    match parseMove (d.attempted_move.getD "") with
    | .ok u => .valid { d with attempted_move := some u }
    | .error k => .moveError k

/-- The tuple `(d.action, d.attempted_move)` used for vote counting. -/
def decisionTuple (d : PlayerDecision) : String × Option String :=
  (d.action, d.attempted_move)

/-- Maximum multiplicity of an element of `l` (`0` for `[]`). -/
def maxCount {α : Type} [BEq α] (l : List α) : Nat :=
  l.foldr (fun a m => max (l.count a) m) 0

/-- `Counter(l).most_common(1)[0][0]`: the first element of `l` (insertion
order) whose multiplicity is maximal.  `heapq.nlargest` is stable, so
`most_common(1)` resolves ties in favor of the key inserted first, which is
the first occurrence in `l`. -/
def mostCommon1 {α : Type} [BEq α] (l : List α) : Option α :=
  l.find? (fun k => decide (l.count k = maxCount l))

/-- The majority-voting selection of
`_get_most_voted_player_decision_from_llm` on a non-empty decisions list:
the first decision whose `(action, attempted_move)` tuple is the most common
one.  (On an empty list Python would raise; the `resignDecision` defaults
are unreachable and proved so below.) -/
def selectMostVoted (decisions : List PlayerDecision) : PlayerDecision :=
  let tuples := decisions.map decisionTuple
  match mostCommon1 tuples with
  | some t =>
    ((decisions.filter (fun d => decide (decisionTuple d = t))).head?).getD
      resignDecision
  | none => resignDecision

/-- The sentinel decision synthesized when every completion failed parsing:
an invalid move `"???"` carrying the first raw completion. -/
def sentinelDecision (responses : List String) : PlayerDecision :=
  { action := "move", attempted_move := some "???", response := responses.head? }

/-- `_get_most_voted_player_decision_from_llm` after the connector call,
parameterized by the handler's `parse_decision_from_response` (`none`
models a raised `ParseMoveError`, which is caught per response). -/
def getMostVotedPlayerDecision (parseFn : String → Option PlayerDecision)
    (responses : List String) : PlayerDecision :=
  let decisions := responses.filterMap parseFn
  if decisions.isEmpty then sentinelDecision responses
  else selectMostVoted decisions

/-- One completion "fails to yield a validated move": its parse raises
`ParseMoveError`, or the parsed decision fails validation with a retryable
move error. -/
def CompletionFails (parseFn : String → Option PlayerDecision)
    (parseMove : String → Except MoveErrorKind String) (r : String) : Prop :=
  parseFn r = none ∨
    ∃ d, parseFn r = some d ∧ ∃ k, validateDecision parseMove d = .moveError k

/-- The retry loop of `_make_decision`.  `fuel` is the number of remaining
iterations of `for attempt in range(max_move_retries + 1)`, `calls` the
number of connector queries issued so far (each iteration issues exactly
one).  The connector is an oracle indexed by the query number and the
current prompt; `Except.error` models a raised `TimeoutError` /
`ConnectionError`, which the source re-raises.  `retryPrompt k prompt d`
models `handler.get_retry_prompt(...)`, built only while attempts remain
(`attempt < max_move_retries`, i.e. remaining fuel is positive).  The
result pairs the decision (or propagated network error) with the total
number of connector queries issued. -/
def runAttempts (parseFn : String → Option PlayerDecision)
    (parseMove : String → Except MoveErrorKind String)
    (conn : Nat → String → Except NetworkError (List String))
    (retryPrompt : MoveErrorKind → String → PlayerDecision → String) :
    Nat → Nat → String → Except NetworkError PlayerDecision × Nat
  | 0, calls, _ => (Except.ok resignDecision, calls)
  | fuel + 1, calls, prompt =>
    match conn calls prompt with
    | Except.error e => (Except.error e, calls + 1)
    | Except.ok responses =>
      let decision := getMostVotedPlayerDecision parseFn responses
      match validateDecision parseMove decision with
      | .valid d => (Except.ok d, calls + 1)
      | .unsupported => (Except.ok resignDecision, calls + 1)
      | .moveError k =>
        runAttempts parseFn parseMove conn retryPrompt fuel (calls + 1)
          (if 0 < fuel then retryPrompt k prompt decision else prompt)

/-- `LLMPlayer._make_decision` with `max_move_retries = maxMoveRetries`:
run the loop for `maxMoveRetries + 1` attempts starting from the initial
prompt. -/
def makeDecision (parseFn : String → Option PlayerDecision)
    (parseMove : String → Except MoveErrorKind String)
    (conn : Nat → String → Except NetworkError (List String))
    (retryPrompt : MoveErrorKind → String → PlayerDecision → String)
    (maxMoveRetries : Nat) (initialPrompt : String) :
    Except NetworkError PlayerDecision × Nat :=
  runAttempts parseFn parseMove conn retryPrompt (maxMoveRetries + 1) 0
    initialPrompt

/-! ### Helper lemmas: majority voting -/

theorem find?_split {α : Type} (p : α → Bool) (l : List α)
    (h : ∃ a ∈ l, p a = true) :
    ∃ b pre post, l.find? p = some b ∧ p b = true ∧ l = pre ++ b :: post ∧
      ∀ x ∈ pre, p x = false := by
  induction l with
  | nil =>
    obtain ⟨a, ha, _⟩ := h
    exact absurd ha (List.not_mem_nil a)
  | cons c l ih =>
    cases hp : p c with
    | true =>
      exact ⟨c, [], l, by simp [List.find?, hp], hp, rfl, by simp⟩
    | false =>
      obtain ⟨a, ha, hpa⟩ := h
      have ha' : a ∈ l := by
        cases List.mem_cons.mp ha with
        | inl h' => subst h'; rw [hp] at hpa; exact absurd hpa (by simp)
        | inr h' => exact h'
      obtain ⟨b, pre, post, h1, h2, h3, h4⟩ := ih ⟨a, ha', hpa⟩
      refine ⟨b, c :: pre, post, ?_, h2, by simp [h3], ?_⟩
      · simp [List.find?, hp, h1]
      · intro x hx
        cases List.mem_cons.mp hx with
        | inl h' => subst h'; exact hp
        | inr h' => exact h4 x h'

theorem count_le_foldr_max {α : Type} [BEq α] (l : List α) :
    ∀ m : List α, ∀ a ∈ m,
      l.count a ≤ m.foldr (fun x acc => max (l.count x) acc) 0 := by
  intro m
  induction m with
  | nil =>
    intro a ha
    exact absurd ha (List.not_mem_nil a)
  | cons b m ih =>
    intro a ha
    rw [List.foldr_cons]
    cases List.mem_cons.mp ha with
    | inl h => subst h; exact Nat.le_max_left _ _
    | inr h => exact Nat.le_trans (ih a h) (Nat.le_max_right _ _)

theorem foldr_max_mem {α : Type} [BEq α] (l : List α) :
    ∀ m : List α, m ≠ [] →
      ∃ a ∈ m, m.foldr (fun x acc => max (l.count x) acc) 0 = l.count a := by
  intro m
  induction m with
  | nil => intro h; exact absurd rfl h
  | cons b m ih =>
    intro _
    cases m with
    | nil => exact ⟨b, by simp, by simp⟩
    | cons c m' =>
      obtain ⟨a, ha, hval⟩ := ih (by simp)
      by_cases hle :
          (c :: m').foldr (fun x acc => max (l.count x) acc) 0 ≤ l.count b
      · exact ⟨b, by simp, by rw [List.foldr_cons, Nat.max_eq_left hle]⟩
      · refine ⟨a, List.mem_cons_of_mem _ ha, ?_⟩
        rw [List.foldr_cons, Nat.max_eq_right (Nat.le_of_not_le hle), hval]

theorem count_le_maxCount {α : Type} [BEq α] (l : List α) (a : α)
    (ha : a ∈ l) : l.count a ≤ maxCount l :=
  count_le_foldr_max l l a ha

theorem maxCount_is_attained {α : Type} [BEq α] (l : List α)
    (h : l ≠ []) : ∃ a ∈ l, l.count a = maxCount l := by
  obtain ⟨a, ha, hv⟩ := foldr_max_mem l l h
  exact ⟨a, ha, hv.symm⟩

/-- `Counter.most_common(1)` on a non-empty list: the selected element has
maximal multiplicity and is the first element of the list attaining it
(every element strictly before it has strictly smaller multiplicity). -/
theorem mostCommon1_spec {α : Type} [BEq α] (l : List α) (h : l ≠ []) :
    ∃ t, mostCommon1 l = some t ∧ t ∈ l ∧
      (∀ u ∈ l, l.count u ≤ l.count t) ∧
      ∃ pre post, l = pre ++ t :: post ∧ ∀ u ∈ pre, l.count u < l.count t := by
  obtain ⟨a, ha, hc⟩ := maxCount_is_attained l h
  obtain ⟨b, pre, post, h1, h2, h3, h4⟩ :=
    find?_split (fun k => decide (l.count k = maxCount l)) l
      ⟨a, ha, by simp [hc]⟩
  have hb : l.count b = maxCount l := of_decide_eq_true h2
  refine ⟨b, h1, List.mem_of_find?_eq_some h1, ?_, pre, post, h3, ?_⟩
  · intro u hu
    rw [hb]
    exact count_le_maxCount l u hu
  · intro u hu
    have hne : l.count u ≠ maxCount l := by simpa using h4 u hu
    have hle : l.count u ≤ maxCount l :=
      count_le_maxCount l u (by rw [h3]; exact List.mem_append_left _ hu)
    rw [hb]
    omega

/-- On a non-empty decisions list, the selection of
`_get_most_voted_player_decision_from_llm` returns one of the decisions,
and its `(action, attempted_move)` tuple is the one chosen by
`most_common(1)`. -/
theorem selectMostVoted_spec (decisions : List PlayerDecision)
    (h : decisions ≠ []) :
    ∃ t, mostCommon1 (decisions.map decisionTuple) = some t ∧
      selectMostVoted decisions ∈ decisions ∧
      decisionTuple (selectMostVoted decisions) = t := by
  have htup : decisions.map decisionTuple ≠ [] := by
    intro hh
    exact h (List.map_eq_nil_iff.mp hh)
  obtain ⟨t, hmc, htmem, _, _⟩ := mostCommon1_spec _ htup
  obtain ⟨d0, hd0, hd0t⟩ := List.mem_map.mp htmem
  have hfil : d0 ∈ decisions.filter (fun d => decide (decisionTuple d = t)) :=
    List.mem_filter.mpr ⟨hd0, by simp [hd0t]⟩
  cases hfl : decisions.filter (fun d => decide (decisionTuple d = t)) with
  | nil =>
    rw [hfl] at hfil
    exact absurd hfil (List.not_mem_nil d0)
  | cons x xs =>
    have hx : x ∈ decisions.filter (fun d => decide (decisionTuple d = t)) := by
      rw [hfl]
      exact List.mem_cons_self x xs
    have hxmem := (List.mem_filter.mp hx).1
    have hxt : decisionTuple x = t := of_decide_eq_true (List.mem_filter.mp hx).2
    refine ⟨t, hmc, ?_, ?_⟩
    · simp only [selectMostVoted, hmc, hfl, List.head?, Option.getD_some]
      exact hxmem
    · simp only [selectMostVoted, hmc, hfl, List.head?, Option.getD_some]
      exact hxt

/-! ### Helper lemmas: the retry loop -/

/-- If every completion of a round fails to yield a validated move (and the
sentinel's `"???"` fails the move parser), the decision selected by
`_get_most_voted_player_decision_from_llm` fails validation with a
retryable move error. -/
theorem validate_getMostVoted_fails
    (parseFn : String → Option PlayerDecision)
    (parseMove : String → Except MoveErrorKind String)
    (responses : List String)
    (hall : ∀ r ∈ responses, CompletionFails parseFn parseMove r)
    (hsent : ∃ k, parseMove "???" = Except.error k) :
    ∃ k, validateDecision parseMove
      (getMostVotedPlayerDecision parseFn responses) =
        ValidationResult.moveError k := by
  cases hl : responses.filterMap parseFn with
  | nil =>
    obtain ⟨k, hk⟩ := hsent
    refine ⟨k, ?_⟩
    simp only [getMostVotedPlayerDecision, hl, List.isEmpty_nil, if_pos]
    simp only [sentinelDecision, validateDecision, Option.getD_some]
    rw [if_neg (by decide), if_neg (by simp), hk]
  | cons x xs =>
    have hne : responses.filterMap parseFn ≠ [] := by
      rw [hl]
      exact List.cons_ne_nil x xs
    obtain ⟨t, _, hmem, _⟩ := selectMostVoted_spec _ hne
    obtain ⟨r, hr, hpr⟩ := List.mem_filterMap.mp hmem
    have hgm : getMostVotedPlayerDecision parseFn responses =
        selectMostVoted (responses.filterMap parseFn) := by
      simp only [getMostVotedPlayerDecision]
      rw [if_neg (by rw [hl]; simp)]
    cases hall r hr with
    | inl h0 =>
      rw [h0] at hpr
      exact absurd hpr (by simp)
    | inr h0 =>
      obtain ⟨d, hd', k, hk⟩ := h0
      rw [hd'] at hpr
      have hds : d = selectMostVoted (responses.filterMap parseFn) :=
        Option.some_injective _ hpr
      refine ⟨k, ?_⟩
      rw [hgm, ← hds]
      exact hk

/-- The per-round hypothesis of the exhaustion theorems: query `i` returns
(rather than raises), with a non-empty batch of completions none of which
yields a validated move. -/
def RoundFails (parseFn : String → Option PlayerDecision)
    (parseMove : String → Except MoveErrorKind String)
    (conn : Nat → String → Except NetworkError (List String)) (i : Nat) : Prop :=
  ∀ p, ∃ rs, conn i p = Except.ok rs ∧ rs ≠ [] ∧
    ∀ r ∈ rs, CompletionFails parseFn parseMove r

theorem runAttempts_all_fail
    (parseFn : String → Option PlayerDecision)
    (parseMove : String → Except MoveErrorKind String)
    (conn : Nat → String → Except NetworkError (List String))
    (retryPrompt : MoveErrorKind → String → PlayerDecision → String)
    (hsent : ∃ k, parseMove "???" = Except.error k) :
    ∀ fuel calls prompt,
      (∀ i, calls ≤ i → i < calls + fuel → RoundFails parseFn parseMove conn i) →
      runAttempts parseFn parseMove conn retryPrompt fuel calls prompt =
        (Except.ok resignDecision, calls + fuel) := by
  intro fuel
  induction fuel with
  | zero =>
    intro calls prompt _
    simp [runAttempts]
  | succ n ih =>
    intro calls prompt hc
    obtain ⟨rs, hrs, _, hall⟩ := hc calls (Nat.le_refl _) (by omega) prompt
    obtain ⟨k, hval⟩ := validate_getMostVoted_fails parseFn parseMove rs hall hsent
    have hrec := ih (calls + 1)
      (if 0 < n then retryPrompt k prompt (getMostVotedPlayerDecision parseFn rs)
       else prompt)
      (fun i h1 h2 => hc i (by omega) (by omega))
    simp only [runAttempts, hrs, hval]
    rw [hrec]
    have : calls + 1 + n = calls + (n + 1) := by omega
    rw [this]

theorem runAttempts_error_at
    (parseFn : String → Option PlayerDecision)
    (parseMove : String → Except MoveErrorKind String)
    (conn : Nat → String → Except NetworkError (List String))
    (retryPrompt : MoveErrorKind → String → PlayerDecision → String)
    (e : NetworkError)
    (hsent : ∃ k, parseMove "???" = Except.error k) :
    ∀ fuel calls prompt j, j < fuel →
      (∀ i, calls ≤ i → i < calls + j → RoundFails parseFn parseMove conn i) →
      (∀ p, conn (calls + j) p = Except.error e) →
      runAttempts parseFn parseMove conn retryPrompt fuel calls prompt =
        (Except.error e, calls + j + 1) := by
  intro fuel
  induction fuel with
  | zero =>
    intro calls prompt j hj
    exact absurd hj (Nat.not_lt_zero j)
  | succ n ih =>
    intro calls prompt j hj hpre herr
    cases j with
    | zero =>
      have h0 := herr prompt
      rw [Nat.add_zero] at h0
      simp only [runAttempts, h0]
    | succ m =>
      obtain ⟨rs, hrs, _, hall⟩ := hpre calls (Nat.le_refl _) (by omega) prompt
      obtain ⟨k, hval⟩ :=
        validate_getMostVoted_fails parseFn parseMove rs hall hsent
      have herr' : ∀ p, conn (calls + 1 + m) p = Except.error e := by
        intro p
        rw [show calls + 1 + m = calls + (m + 1) by omega]
        exact herr p
      have hrec := ih (calls + 1)
        (if 0 < n then
          retryPrompt k prompt (getMostVotedPlayerDecision parseFn rs)
         else prompt)
        m (by omega) (fun i h1 h2 => hpre i (by omega) (by omega)) herr'
      simp only [runAttempts, hrs, hval]
      rw [hrec]
      have : calls + 1 + m + 1 = calls + (m + 1) + 1 := by omega
      rw [this]

/-! ### Claim C1 -/

/-- C1: for every LLM player with `max_move_retries = R` and any number of
votes, if every completion returned by the connector on every attempt fails
to yield a validated move (each completion either fails parsing or fails
validation with a retryable move error, and the sentinel move `"???"` fails
the move parser), then `_make_decision` issues exactly `R + 1` connector
query calls and returns — does not raise — the resignation decision. -/
theorem llm_player_exhausts_retries_then_resigns
    (parseFn : String → Option PlayerDecision)
    (parseMove : String → Except MoveErrorKind String)
    (conn : Nat → String → Except NetworkError (List String))
    (retryPrompt : MoveErrorKind → String → PlayerDecision → String)
    (maxMoveRetries : Nat) (prompt : String)
    (hconn : ∀ i, RoundFails parseFn parseMove conn i)
    (hsent : ∃ k, parseMove "???" = Except.error k) :
    makeDecision parseFn parseMove conn retryPrompt maxMoveRetries prompt =
      (Except.ok resignDecision, maxMoveRetries + 1) := by
  have h := runAttempts_all_fail parseFn parseMove conn retryPrompt hsent
    (maxMoveRetries + 1) 0 prompt (fun i _ _ => hconn i)
  simpa [makeDecision] using h

def alwaysFailParse : String → Option PlayerDecision := fun _ => none

def alwaysInvalidMove : String → Except MoveErrorKind String :=
  fun _ => Except.error MoveErrorKind.invalid

def alwaysOkConn : Nat → String → Except NetworkError (List String) :=
  fun _ _ => Except.ok ["unparseable"]

def keepPrompt : MoveErrorKind → String → PlayerDecision → String :=
  fun _ p _ => p

theorem llm_player_exhausts_retries_then_resigns_witness :
    makeDecision alwaysFailParse alwaysInvalidMove alwaysOkConn keepPrompt 2
      "prompt" = (Except.ok resignDecision, 3) :=
  llm_player_exhausts_retries_then_resigns alwaysFailParse alwaysInvalidMove
    alwaysOkConn keepPrompt 2 "prompt"
    (fun _ p => ⟨["unparseable"], rfl, by simp,
      fun r _ => Or.inl rfl⟩)
    ⟨MoveErrorKind.invalid, rfl⟩

/-! ### Claim C3 -/

/-- C3: if the connector query of attempt `k` (reached after `k` failed
attempts) raises a timeout or connection error, the exception propagates
immediately out of `_make_decision`: the result is the error itself (never
a resignation decision) and exactly `k + 1` queries were issued — the
failure consumes no retry attempt and is not retried at this layer. -/
theorem llm_player_network_error_propagates
    (parseFn : String → Option PlayerDecision)
    (parseMove : String → Except MoveErrorKind String)
    (conn : Nat → String → Except NetworkError (List String))
    (retryPrompt : MoveErrorKind → String → PlayerDecision → String)
    (maxMoveRetries k : Nat) (prompt : String) (e : NetworkError)
    (hk : k ≤ maxMoveRetries)
    (hpre : ∀ i, i < k → RoundFails parseFn parseMove conn i)
    (hsent : ∃ k0, parseMove "???" = Except.error k0)
    (herr : ∀ p, conn k p = Except.error e) :
    makeDecision parseFn parseMove conn retryPrompt maxMoveRetries prompt =
      (Except.error e, k + 1) := by
  have h := runAttempts_error_at parseFn parseMove conn retryPrompt e hsent
    (maxMoveRetries + 1) 0 prompt k (by omega)
    (fun i _ h2 => hpre i (by omega))
    (by simpa using herr)
  simpa [makeDecision] using h

def errorAtOneConn : Nat → String → Except NetworkError (List String) :=
  fun i _ => if i = 0 then Except.ok ["unparseable"] else
    Except.error NetworkError.timeout

theorem llm_player_network_error_propagates_witness :
    makeDecision alwaysFailParse alwaysInvalidMove errorAtOneConn keepPrompt 2
      "prompt" = (Except.error NetworkError.timeout, 2) :=
  llm_player_network_error_propagates alwaysFailParse alwaysInvalidMove
    errorAtOneConn keepPrompt 2 1 "prompt" NetworkError.timeout (by omega)
    (fun i hi p => by
      interval_cases i
      exact ⟨["unparseable"], rfl, by simp, fun r _ => Or.inl rfl⟩)
    ⟨MoveErrorKind.invalid, rfl⟩
    (fun p => rfl)

/-! ### Claim C4 -/

/-- C4: when every completion of a round fails extraction/parsing, the
orchestrator does not raise: it synthesizes the sentinel decision with
`action = "move"`, the invalid attempted move `"???"`, and the first raw
completion in its `response` field; that sentinel proceeds into validation
(failing with a move error) and the round consumes exactly one retry
attempt of the loop. -/
theorem llm_player_sentinel_on_total_parse_failure
    (parseFn : String → Option PlayerDecision)
    (parseMove : String → Except MoveErrorKind String)
    (conn : Nat → String → Except NetworkError (List String))
    (retryPrompt : MoveErrorKind → String → PlayerDecision → String)
    (fuel calls : Nat) (prompt : String)
    (responses : List String) (k : MoveErrorKind)
    (hc : conn calls prompt = Except.ok responses)
    (hne : responses ≠ [])
    (hall : ∀ r ∈ responses, parseFn r = none)
    (hk : parseMove "???" = Except.error k) :
    getMostVotedPlayerDecision parseFn responses = sentinelDecision responses ∧
    (sentinelDecision responses).action = "move" ∧
    (sentinelDecision responses).attempted_move = some "???" ∧
    (∃ r0 rest, responses = r0 :: rest ∧
      (sentinelDecision responses).response = some r0) ∧
    validateDecision parseMove (sentinelDecision responses) =
      ValidationResult.moveError k ∧
    runAttempts parseFn parseMove conn retryPrompt (fuel + 1) calls prompt =
      runAttempts parseFn parseMove conn retryPrompt fuel (calls + 1)
        (if 0 < fuel then
          retryPrompt k prompt (sentinelDecision responses)
         else prompt) := by
  have hfm : responses.filterMap parseFn = [] := by
    rw [List.filterMap_eq_nil_iff]
    exact hall
  have hgm : getMostVotedPlayerDecision parseFn responses =
      sentinelDecision responses := by
    simp [getMostVotedPlayerDecision, hfm]
  have hval : validateDecision parseMove (sentinelDecision responses) =
      ValidationResult.moveError k := by
    simp only [sentinelDecision, validateDecision, Option.getD_some]
    rw [if_neg (by decide), if_neg (by simp), hk]
  refine ⟨hgm, rfl, rfl, ?_, hval, ?_⟩
  · cases responses with
    | nil => exact absurd rfl hne
    | cons r0 rest => exact ⟨r0, rest, rfl, rfl⟩
  · simp only [runAttempts, hc, hgm, hval]

theorem llm_player_sentinel_on_total_parse_failure_witness :
    getMostVotedPlayerDecision alwaysFailParse ["unparseable"] =
      sentinelDecision ["unparseable"] ∧
    (sentinelDecision ["unparseable"]).action = "move" ∧
    (sentinelDecision ["unparseable"]).attempted_move = some "???" ∧
    (∃ r0 rest, ["unparseable"] = r0 :: rest ∧
      (sentinelDecision ["unparseable"]).response = some r0) ∧
    validateDecision alwaysInvalidMove (sentinelDecision ["unparseable"]) =
      ValidationResult.moveError MoveErrorKind.invalid ∧
    runAttempts alwaysFailParse alwaysInvalidMove alwaysOkConn keepPrompt 3 0
      "prompt" =
      runAttempts alwaysFailParse alwaysInvalidMove alwaysOkConn keepPrompt 2 1
        (if 0 < 2 then
          keepPrompt MoveErrorKind.invalid "prompt"
            (sentinelDecision ["unparseable"])
         else "prompt") :=
  llm_player_sentinel_on_total_parse_failure alwaysFailParse alwaysInvalidMove
    alwaysOkConn keepPrompt 2 0 "prompt" ["unparseable"]
    MoveErrorKind.invalid rfl (by simp) (fun r _ => rfl) rfl

/-! ### Claim C2 -/

/-- C2: on every non-empty list of parsed decisions of one voting round,
the orchestrator selects one of the decisions, whose
`(action, attempted_move)` tuple has maximal vote count; when several
tuples tie at the maximal count, the selected tuple is the one appearing
first in the list (every tuple strictly before it in the list has a
strictly smaller count) — deterministically, never randomly. -/
theorem llm_player_majority_vote_first_seen
    (decisions : List PlayerDecision) (h : decisions ≠ []) :
    ∃ t, mostCommon1 (decisions.map decisionTuple) = some t ∧
      selectMostVoted decisions ∈ decisions ∧
      decisionTuple (selectMostVoted decisions) = t ∧
      (∀ u ∈ decisions.map decisionTuple,
        (decisions.map decisionTuple).count u ≤
          (decisions.map decisionTuple).count t) ∧
      ∃ pre post, decisions.map decisionTuple = pre ++ t :: post ∧
        ∀ u ∈ pre,
          (decisions.map decisionTuple).count u <
            (decisions.map decisionTuple).count t := by
  have htup : decisions.map decisionTuple ≠ [] := fun hh =>
    h (List.map_eq_nil_iff.mp hh)
  obtain ⟨t, hmc, _, hmax, hfirst⟩ := mostCommon1_spec _ htup
  obtain ⟨t', hmc', hmem, htup'⟩ := selectMostVoted_spec decisions h
  rw [hmc] at hmc'
  have hts : t = t' := Option.some_injective _ hmc'
  subst hts
  exact ⟨t, hmc, hmem, htup', hmax, hfirst⟩

def votedDecisions5 : List PlayerDecision :=
  [ { action := "move", attempted_move := some "e4" },
    { action := "move", attempted_move := some "d4" },
    { action := "move", attempted_move := some "e4" },
    { action := "move", attempted_move := some "d4" },
    { action := "move", attempted_move := some "Nf3" } ]

theorem llm_player_majority_vote_first_seen_witness :
    votedDecisions5 ≠ [] ∧
    decisionTuple (selectMostVoted votedDecisions5) = ("move", some "e4") ∧
    (∃ t, mostCommon1 (votedDecisions5.map decisionTuple) = some t ∧
      selectMostVoted votedDecisions5 ∈ votedDecisions5 ∧
      decisionTuple (selectMostVoted votedDecisions5) = t ∧
      (∀ u ∈ votedDecisions5.map decisionTuple,
        (votedDecisions5.map decisionTuple).count u ≤
          (votedDecisions5.map decisionTuple).count t) ∧
      ∃ pre post, votedDecisions5.map decisionTuple = pre ++ t :: post ∧
        ∀ u ∈ pre,
          (votedDecisions5.map decisionTuple).count u <
            (votedDecisions5.map decisionTuple).count t) :=
  ⟨by decide, by decide,
    llm_player_majority_vote_first_seen votedDecisions5 (by decide)⟩

/-! ### Claim C10 -/

/-- C10: every `PlayerDecision` built by the default handler's parsing path
has `action = "move"` and a non-empty attempted move; the same holds for
whatever `_get_most_voted_player_decision_from_llm` produces from it
(including the all-parse-failures sentinel); consequently, for any such
decision the validator's immediate-resign-acceptance and
unsupported-action branches are unreachable — validation always reduces to
the move-parsing branch. -/
theorem handler_decisions_always_nonempty_moves :
    (∀ r d, parseDecisionFromResponse r = some d →
      d.action = "move" ∧ ∃ s, d.attempted_move = some s ∧ s ≠ "") ∧
    (∀ responses : List String,
      (getMostVotedPlayerDecision parseDecisionFromResponse responses).action =
        "move" ∧
      ∃ s, (getMostVotedPlayerDecision parseDecisionFromResponse
          responses).attempted_move = some s ∧ s ≠ "") ∧
    (∀ d : PlayerDecision, d.action = "move" →
      ∀ parseMove : String → Except MoveErrorKind String,
        validateDecision parseMove d =
          match parseMove (d.attempted_move.getD "") with
          | Except.ok u => ValidationResult.valid { d with attempted_move := some u }
          | Except.error k => ValidationResult.moveError k) := by
  have hparse : ∀ r d, parseDecisionFromResponse r = some d →
      d.action = "move" ∧ ∃ s, d.attempted_move = some s ∧ s ≠ "" := by
    intro r d hd
    rw [parseDecisionFromResponse] at hd
    cases hext : extractDecisionText r.data with
    | none => rw [hext] at hd; exact absurd hd (by simp)
    | some cs =>
      rw [hext] at hd
      dsimp only at hd
      by_cases hcs : cs = []
      · rw [if_pos hcs] at hd
        exact absurd hd (by simp)
      · rw [if_neg hcs] at hd
        have hd' := (Option.some_injective _ hd).symm
        subst hd'
        refine ⟨rfl, String.mk cs, rfl, ?_⟩
        intro hmk
        apply hcs
        have := congrArg String.data hmk
        simpa using this
  refine ⟨hparse, ?_, ?_⟩
  · intro responses
    cases hl : responses.filterMap parseDecisionFromResponse with
    | nil =>
      have hgm : getMostVotedPlayerDecision parseDecisionFromResponse
          responses = sentinelDecision responses := by
        simp [getMostVotedPlayerDecision, hl]
      rw [hgm]
      exact ⟨rfl, "???", rfl, by decide⟩
    | cons x xs =>
      have hne : responses.filterMap parseDecisionFromResponse ≠ [] := by
        rw [hl]
        exact List.cons_ne_nil x xs
      obtain ⟨t, _, hmem, _⟩ := selectMostVoted_spec _ hne
      obtain ⟨r, _, hpr⟩ := List.mem_filterMap.mp hmem
      have hgm : getMostVotedPlayerDecision parseDecisionFromResponse
          responses = selectMostVoted
            (responses.filterMap parseDecisionFromResponse) := by
        simp only [getMostVotedPlayerDecision]
        rw [if_neg (by rw [hl]; simp)]
      rw [hgm]
      exact hparse r _ hpr
  · intro d hmove parseMove
    rw [validateDecision, if_neg (by rw [hmove]; decide),
      if_neg (by rw [hmove]; simp)]

theorem handler_decisions_always_nonempty_moves_witness :
    ((getMostVotedPlayerDecision parseDecisionFromResponse
        ["Final Answer: e4"]).action = "move" ∧
      ∃ s, (getMostVotedPlayerDecision parseDecisionFromResponse
          ["Final Answer: e4"]).attempted_move = some s ∧ s ≠ "") ∧
    validateDecision alwaysInvalidMove
        (getMostVotedPlayerDecision parseDecisionFromResponse
          ["Final Answer: e4"]) =
      ValidationResult.moveError MoveErrorKind.invalid :=
  ⟨handler_decisions_always_nonempty_moves.2.1 ["Final Answer: e4"],
    ((handler_decisions_always_nonempty_moves.2.2 _
      (handler_decisions_always_nonempty_moves.2.1 ["Final Answer: e4"]).1
      alwaysInvalidMove)).trans (by rfl)⟩

/-! ### Helper lemmas: marker search -/

theorem occursAtB_length {t p : List Char} {j : Nat} (hp : p ≠ [])
    (h : occursAtB t p j = true) : j + p.length ≤ t.length := by
  have hpre : p <+: t.drop j := by
    rw [occursAtB] at h
    exact List.isPrefixOf_iff_prefix.mp h
  have hlen := hpre.length_le
  rw [List.length_drop] at hlen
  by_cases hj : j ≤ t.length
  · omega
  · exfalso
    have hdrop : t.drop j = [] := List.drop_eq_nil_of_le (by omega)
    rw [hdrop] at hpre
    exact hp (List.prefix_nil.mp hpre)

theorem rfindAux_last_occurrence {t p : List Char} :
    ∀ n i, occursAtB t p i = true → i ≤ n →
      (∀ j, occursAtB t p j = true → j ≤ i) →
      rfindAux t p n = some i := by
  intro n
  induction n with
  | zero =>
    intro i hocc hle _
    have hi : i = 0 := by omega
    subst hi
    simp [rfindAux, hocc]
  | succ m ih =>
    intro i hocc hle hmax
    cases hx : occursAtB t p (m + 1) with
    | true =>
      have h1 : m + 1 ≤ i := hmax _ hx
      have hi : i = m + 1 := by omega
      subst hi
      simp [rfindAux, hx]
    | false =>
      have hi : i ≤ m := by
        rcases Nat.lt_or_ge i (m + 1) with h | h
        · omega
        · have : i = m + 1 := by omega
          subst this
          rw [hocc] at hx
          exact absurd hx (by simp)
      simp only [rfindAux, hx, Bool.false_eq_true, if_false]
      exact ih i hocc hi hmax

/-- `rfind` returns exactly the last occurrence. -/
theorem rfindSub_last_occurrence {t p : List Char} {i : Nat} (hp : p ≠ [])
    (hocc : occursAtB t p i = true)
    (hmax : ∀ j, occursAtB t p j = true → j ≤ i) :
    rfindSub t p = some i := by
  have hle := occursAtB_length hp hocc
  have hplen : 0 < p.length := List.length_pos.mpr hp
  rw [rfindSub, if_pos (by omega)]
  exact rfindAux_last_occurrence (t.length - p.length) i hocc (by omega) hmax

/-! ### Claim C6 (corrected) -/

/-- The lowercase of the highest-priority marker `"Final Answer:"`. -/
def faMarkerLower : List Char := "final answer:".data

/-- C6 (amended): the extractor walks its fixed, priority-ordered marker
list and commits to the FIRST marker (in list order) that occurs at all,
taking the text after the LAST (case-insensitive) occurrence of that
marker — not after the last occurrence over all markers.  In particular,
whenever `"final answer:"` occurs (case-insensitively) and its last
occurrence is at index `i`, extraction processes exactly the text after
index `i + 13`, regardless of any later occurrence of the other
markers. -/
theorem extract_takes_last_priority_marker (r : List Char) (i : Nat)
    (hocc : occursAtB (lowerList r) faMarkerLower i = true)
    (hmax : ∀ j, occursAtB (lowerList r) faMarkerLower j = true → j ≤ i) :
    extractRawMoveText r = some (afterMarker (r.drop (i + 13))) := by
  have hp : faMarkerLower ≠ [] := by decide
  have hlen := occursAtB_length hp hocc
  have hrlen : (lowerList r).length = r.length := by
    simp [lowerList]
  have hfalen : faMarkerLower.length = 13 := rfl
  have hrne : r ≠ [] := by
    intro hnil
    subst hnil
    have h0 : (lowerList ([] : List Char)).length = 0 := rfl
    omega
  have hfa : lowerList ("Final Answer:".data) = faMarkerLower := by decide
  have hrf : rfindSub (lowerList r) (lowerList "Final Answer:".data) = some i := by
    rw [hfa]
    exact rfindSub_last_occurrence hp hocc hmax
  have hfm : findMarkerAux markers (lowerList r) = some (i, 13) := by
    simp only [markers, findMarkerAux, hrf]
    rfl
  rw [extractRawMoveText, if_neg hrne, hfm]

theorem extract_takes_last_priority_marker_witness :
    occursAtB (lowerList "Final Answer: e4. Final Answer: d4".data)
      faMarkerLower 18 = true ∧
    extractRawMoveText "Final Answer: e4. Final Answer: d4".data =
      some "d4".data :=
  ⟨by decide,
    (extract_takes_last_priority_marker
      "Final Answer: e4. Final Answer: d4".data 18 (by decide)
      (fun j hj => by
        have hb := occursAtB_length (p := faMarkerLower) (by decide) hj
        have hlen : (lowerList "Final Answer: e4. Final Answer: d4".data).length
            = 34 := by decide
        have h21 : j ≤ 21 := by
          rw [hlen] at hb
          have : faMarkerLower.length = 13 := rfl
          omega
        have hall : ∀ j0, j0 ≤ 21 →
            occursAtB (lowerList "Final Answer: e4. Final Answer: d4".data)
              faMarkerLower j0 = true → j0 ≤ 18 := by decide
        exact hall j h21 hj)).trans (by decide)⟩

/-- The extraction rule as the claim words it: take the text after the
last occurrence of ANY marker in the text (the marker whose `rfind` index
is maximal), then process it the same way.  Used only to exhibit that the
source does not implement this rule. -/
def lastAnyMarkerIndex (rl : List Char) : Option (Nat × Nat) :=
  markers.foldl (fun best m =>
    match rfindSub rl (lowerList m) with
    | some i =>
      match best with
      | some (bi, _) => if bi < i then some (i, m.length) else best
      | none => some (i, m.length)
    | none => best) none

/-- The claim's reading of `_extract_raw_move_text` (last occurrence over
all markers). -/
def extractRawSpecLastAnyMarker (response : List Char) : Option (List Char) :=
  if response = [] then none
  else
    match lastAnyMarkerIndex (lowerList response) with
    | some (i, mlen) => some (afterMarker (response.drop (i + mlen)))
    | none =>
      let s := pyStrip response
      if s.length ≤ 10 ∧ s ≠ [] ∧ ' ' ∉ s ∧ ∃ c ∈ s, c ∈ plausibleChars
      then some s
      else none

/-- Counterexample to C6 as stated: in
`"Final Answer: e4. The final answer is d4"` the last marker occurrence in
the text is `"The final answer is"` (at index 18, after the only
`"Final Answer:"` at index 0), so the claimed rule extracts `"d4"`; the
code commits to the higher-priority marker `"Final Answer:"` and extracts
`"e4"`. -/
theorem extract_last_any_marker_counterexample :
    extractRawMoveText "Final Answer: e4. The final answer is d4".data =
      some "e4".data ∧
    extractRawSpecLastAnyMarker
        "Final Answer: e4. The final answer is d4".data = some "d4".data ∧
    occursAtB (lowerList "Final Answer: e4. The final answer is d4".data)
      (lowerList "The final answer is".data) 18 = true ∧
    "e4".data ≠ "d4".data := by
  refine ⟨by decide, by decide, by decide, by decide⟩

/-! ### Claim C7 (corrected) -/

/-- C7 (amended): when no marker phrase is found, the extractor returns the
whole stripped response if and only if it is non-empty, at most 10
characters long, contains no internal space, and contains AT LEAST ONE
character plausible in chess notation (the source tests `any`, not that the
response consists only of such characters); otherwise extraction fails.
In particular `"e4"` is extracted and `"I think e4 is good"` fails. -/
theorem extract_no_marker_fallback (r : List Char)
    (hnm : findMarkerAux markers (lowerList r) = none) :
    (extractRawMoveText r = some (pyStrip r) ↔
      (pyStrip r).length ≤ 10 ∧ pyStrip r ≠ [] ∧ ' ' ∉ pyStrip r ∧
        ∃ c ∈ pyStrip r, c ∈ plausibleChars) ∧
    (extractRawMoveText r = none ↔
      ¬((pyStrip r).length ≤ 10 ∧ pyStrip r ≠ [] ∧ ' ' ∉ pyStrip r ∧
        ∃ c ∈ pyStrip r, c ∈ plausibleChars)) := by
  by_cases hr : r = []
  · subst hr
    have hps : pyStrip ([] : List Char) = [] := rfl
    rw [hps]
    constructor
    · simp [extractRawMoveText]
    · simp [extractRawMoveText]
  · rw [extractRawMoveText, if_neg hr, hnm]
    by_cases hcond : (pyStrip r).length ≤ 10 ∧ pyStrip r ≠ [] ∧
        ' ' ∉ pyStrip r ∧ ∃ c ∈ pyStrip r, c ∈ plausibleChars
    · constructor
      · simp [hcond]
      · simp [hcond]
    · constructor
      · simp [hcond]
      · simp [hcond]

theorem extract_no_marker_fallback_witness :
    extractRawMoveText "e4".data = some (pyStrip "e4".data) ∧
    pyStrip "e4".data = "e4".data ∧
    extractRawMoveText "I think e4 is good".data = none :=
  ⟨(extract_no_marker_fallback "e4".data (by decide)).1.mpr (by decide),
    by decide,
    (extract_no_marker_fallback "I think e4 is good".data
      (by decide)).2.mpr (by decide)⟩

/-- Counterexample to C7 as stated: `"yes"` is at most 10 characters with
no space but does NOT consist only of plausible chess-notation characters
(`'y'` and `'s'` are not in the set), yet the extractor returns it whole,
because the source only requires SOME character from the set (here `'e'`).
-/
theorem extract_plausible_any_counterexample :
    extractRawMoveText "yes".data = some "yes".data ∧
    ¬(∀ c ∈ "yes".data, c ∈ plausibleChars) := by
  refine ⟨by decide, by decide⟩

/-! ### Claim C8 (corrected) -/

/-- C8 (amended): a marker-delimited span that, after artifact-stripping
and removing all spaces and hyphens, uppercases to `"OO"` or `"OOO"` is
kept intact by the extractor with only its SPACES removed — before the
generic first-token split, so internal spaces do not break it — but it is
NOT rewritten to the canonical `"O-O"` / `"O-O-O"`: case and hyphens are
preserved exactly as written (`"O - O"` becomes `"O-O"` only because its
hyphen was already there; `"o-o"` stays `"o-o"` and is only canonicalized
later by the validator's alias handling; `"0-0"` — with digit zeros — does
not satisfy the letter-`O` test at all and subsequently fails
sanitization). -/
theorem extract_castling_span_space_removal (t : List Char)
    (h : castlingCheck
      (removeTags (applyReplacements artifactReplacements
        (stripBoth isSpaceDot t))) = true) :
    afterMarker t =
      (pyStrip (removeTags (applyReplacements artifactReplacements
        (stripBoth isSpaceDot t)))).filter (fun c => !(c == ' ')) ∧
    ' ' ∉ afterMarker t := by
  have heq : afterMarker t =
      (pyStrip (removeTags (applyReplacements artifactReplacements
        (stripBoth isSpaceDot t)))).filter (fun c => !(c == ' ')) := by
    rw [afterMarker]
    simp only [if_pos h]
  refine ⟨heq, ?_⟩
  rw [heq]
  intro hmem
  have := (List.mem_filter.mp hmem).2
  simp at this

theorem extract_castling_span_space_removal_witness :
    castlingCheck
      (removeTags (applyReplacements artifactReplacements
        (stripBoth isSpaceDot " O - O".data))) = true ∧
    afterMarker " O - O".data = "O-O".data ∧
    ' ' ∉ afterMarker " O - O".data :=
  ⟨by decide,
    ((extract_castling_span_space_removal " O - O".data (by decide)).1).trans
      (by decide),
    (extract_castling_span_space_removal " O - O".data (by decide)).2⟩

/-- Counterexample to C8 as stated: the claim says such spans are
normalized to canonical `"O-O"`, and that `"0-0"` ends up parsing as the
castling move.  In fact the lowercase span of
`"Final Answer: o-o"` is extracted as `"o-o"`, not `"O-O"`, and
`"Final Answer: 0-0"` fails extraction entirely (the digit-zero form
misses the castling branch and is then rejected by the move-number
sanitization). -/
theorem extract_castling_not_canonical_counterexample :
    extractRawMoveText "Final Answer: o-o".data = some "o-o".data ∧
    "o-o".data ≠ "O-O".data ∧
    extractDecisionText "Final Answer: 0-0".data = none := by
  refine ⟨by decide, by decide, by decide⟩

/-! ### Claim C9 -/

/-- C9: for every token whose stripped form starts with a digit,
sanitization succeeds only on a `<digits><one-or-more dots><rest>`
move-number pattern, in which case it continues with `<rest>` (the
punctuation-stripping tail); a digit-prefixed token not matching that
pattern yields nothing, and so does one whose `<rest>` is empty. -/
theorem sanitize_digit_move_number (raw : List Char)
    (h1 : pyStrip raw ≠ [])
    (h2 : isDigitChar ((pyStrip raw).headD ' ') = true) :
    (digitPrefixRest (pyStrip raw) = none → sanitizeMoveText raw = none) ∧
    (∀ rest, digitPrefixRest (pyStrip raw) = some rest →
      sanitizeMoveText raw = sanitizeTail rest) ∧
    (digitPrefixRest (pyStrip raw) = some [] → sanitizeMoveText raw = none) := by
  have hraw : raw ≠ [] := by
    intro hnil
    subst hnil
    exact h1 rfl
  cases hps : pyStrip raw with
  | nil => exact absurd hps h1
  | cons c cs =>
    have hc : isDigitChar c = true := by
      rw [hps] at h2
      simpa using h2
    have hsan : sanitizeMoveText raw =
        match digitPrefixRest (c :: cs) with
        | none => none
        | some rest => sanitizeTail rest := by
      rw [sanitizeMoveText, if_neg hraw, hps]
      simp only [List.head?, hc, if_pos]
    refine ⟨?_, ?_, ?_⟩
    · intro hnone
      rw [hsan, hnone]
    · intro rest hrest
      rw [hsan, hrest]
    · intro hempty
      rw [hsan, hempty]
      rfl

theorem sanitize_digit_move_number_witness :
    sanitizeMoveText "1. e4".data = some "e4".data ∧
    sanitizeMoveText "1...Nf6".data = some "Nf6".data ∧
    sanitizeMoveText "25.".data = none ∧
    sanitizeMoveText "1-0".data = none :=
  ⟨((sanitize_digit_move_number "1. e4".data (by decide) (by decide)).2.1
      "e4".data (by decide)).trans (by decide),
    ((sanitize_digit_move_number "1...Nf6".data (by decide) (by decide)).2.1
      "Nf6".data (by decide)).trans (by decide),
    (sanitize_digit_move_number "25.".data (by decide) (by decide)).2.2 (by decide),
    (sanitize_digit_move_number "1-0".data (by decide) (by decide)).1 (by decide)⟩

/-! ### Claim C5 (divergence: the claim matches the intent, the code does
not) -/

/-- C5 divergence: `"e7e8p"` is accepted by `chess.Move.from_uci` as a
coordinate move (any `PIECE_SYMBOLS` letter, including `'p'`, is a valid
promotion there) and is never legal, so by the claim the failure kind must
be "illegal move".  But the `IllegalMoveError` raised by the source after
the successful coordinate parse is itself a `ValueError` (its base class
`MoveError` subclasses `ValueError`) and is therefore caught by the
function's own `except ValueError:` handler, falling through to SAN
parsing — and python-chess's SAN regex, whose promotion class is
`[nbrqkNBRQK]` (no `p`), rejects `"e7e8p"` (not a null-move alias either),
raising `chess.InvalidMoveError`.  The two hypotheses state exactly these
python-chess facts for this input; the conclusion shows the function
answers "invalid move notation", contradicting the claim. -/
theorem parse_uci_pawn_promotion_diverges (lib : ChessLib) (fen : String)
    (hleg : "e7e8p" ∉ lib.legalMovesUci fen)
    (hsan : lib.parseSanUci fen "e7e8p" = Except.error MoveErrorKind.invalid) :
    uciFromUci "e7e8p" = some "e7e8p" ∧
    parseAttemptedMoveToUci lib "e7e8p" fen =
      Except.error MoveErrorKind.invalid := by
  have hu : uciFromUci "e7e8p" = some "e7e8p" := by decide
  have hn : normalizeAttemptedMove "e7e8p" = "e7e8p" := by decide
  refine ⟨hu, ?_⟩
  simp only [parseAttemptedMoveToUci, hn, hu]
  rw [if_neg hleg]
  rw [sanFallback]
  exact hsan

/-- A minimal stand-in for the python-chess services, agreeing with them on
the input of `parse_uci_pawn_promotion_diverges`. -/
def pawnPromotionLib : ChessLib :=
  { legalMovesUci := fun _ => [],
    parseSanUci := fun _ _ => Except.error MoveErrorKind.invalid }

theorem parse_uci_pawn_promotion_diverges_witness :
    uciFromUci "e7e8p" = some "e7e8p" ∧
    parseAttemptedMoveToUci pawnPromotionLib "e7e8p"
        "rnbqkbnr/pppppppp/8/8/8/8/PPPPPPPP/RNBQKBNR w KQkq - 0 1" =
      Except.error MoveErrorKind.invalid :=
  parse_uci_pawn_promotion_diverges pawnPromotionLib
    "rnbqkbnr/pppppppp/8/8/8/8/PPPPPPPP/RNBQKBNR w KQkq - 0 1"
    (by simp [pawnPromotionLib]) rfl
